import Mathlib

/-!
Shallow embedding of the astronomical core of the `antikythera` repository
(`src/astro.rs`, `src/math.rs`) over exact real arithmetic, together with
theorems settling the frozen claims about it.

Conventions of the embedding:
* `f64` values become `ℝ`; the trigonometric functions become `Real.sin`,
  `Real.cos`, `Real.arccos`, square roots become `Real.sqrt`.
* Rust's `%` on floats is the truncated remainder `a - b * trunc (a / b)`;
  it is embedded as `rrem` below (`rtrunc` rounds toward zero).
* `euclid`'s `Rotation3D::around_y/around_z` follow the right-hand rule
  (a positive angle about Z rotates X toward Y, about Y rotates Z toward X),
  matching the repository's own unit tests; they are embedded as the usual
  rotation matrices `rot_y`, `rot_z`.
* `normalize` divides a vector by its Euclidean length.
-/

noncomputable section

open Real

/-- Immutable 3-component real vector, the embedding of `euclid::Vector3D<f64, U>`. -/
structure Vec3 where
  x : ℝ
  y : ℝ
  z : ℝ

namespace Vec3

/-- Componentwise dot product. -/
def dot (a b : Vec3) : ℝ := a.x * b.x + a.y * b.y + a.z * b.z

/-- Cross product. -/
def cross (a b : Vec3) : Vec3 :=
  ⟨a.y * b.z - a.z * b.y, a.z * b.x - a.x * b.z, a.x * b.y - a.y * b.x⟩

/-- Componentwise subtraction (`Vector3D::sub`). -/
def sub (a b : Vec3) : Vec3 := ⟨a.x - b.x, a.y - b.y, a.z - b.z⟩

/-- Componentwise negation. -/
def neg (a : Vec3) : Vec3 := ⟨-a.x, -a.y, -a.z⟩

/-- Scalar multiple (`Vector3D::mul` by an `f64`). -/
def smul (a : Vec3) (c : ℝ) : Vec3 := ⟨a.x * c, a.y * c, a.z * c⟩

/-- Euclidean length (`Vector3D::length`). -/
def length (a : Vec3) : ℝ := Real.sqrt (a.dot a)

/-- Division by the length (`Vector3D::normalize`). -/
def normalize (a : Vec3) : Vec3 := a.smul (1 / a.length)

end Vec3

/-- Truncation toward zero, the rounding used by Rust's float remainder. -/
def rtrunc (x : ℝ) : ℤ := if 0 ≤ x then ⌊x⌋ else ⌈x⌉

/-- Rust's `%` on `f64`: remainder with the sign of the dividend. -/
def rrem (a b : ℝ) : ℝ := a - b * (rtrunc (a / b) : ℝ)

/-- Embedding of `const X_UNIT`. -/
def X_UNIT : Vec3 := ⟨1, 0, 0⟩

/-- Embedding of `const Z_UNIT`. -/
def Z_UNIT : Vec3 := ⟨0, 0, 1⟩

/-- Embedding of the test-module constant `Y_UNIT`. -/
def Y_UNIT : Vec3 := ⟨0, 1, 0⟩

/-- Embedding of `const INITIAL_DAILY_PHASE`. -/
def INITIAL_DAILY_PHASE : ℝ := 1.741395

/-- Embedding of `const SIDEREAL_DAY`. -/
def SIDEREAL_DAY : ℝ := 23.9344694 * 60 * 60

/-- Embedding of `const AXIAL_TILT`. -/
def AXIAL_TILT : ℝ := 23.436169775089777 * π / 180

/-- Embedding of `const AXIAL_DIRECTION`. -/
def AXIAL_DIRECTION : ℝ := π / 2

/-- Rotation about the Y axis by `angle` (`rot_y` in `astro.rs`); a positive
angle rotates Z toward X. -/
def rot_y (angle : ℝ) (v : Vec3) : Vec3 :=
  ⟨v.x * Real.cos angle + v.z * Real.sin angle, v.y,
   -v.x * Real.sin angle + v.z * Real.cos angle⟩

/-- Rotation about the Z axis by `angle` (`rot_z` in `astro.rs`); a positive
angle rotates X toward Y. -/
def rot_z (angle : ℝ) (v : Vec3) : Vec3 :=
  ⟨v.x * Real.cos angle - v.y * Real.sin angle,
   v.x * Real.sin angle + v.y * Real.cos angle, v.z⟩

/-- Embedding of `get_phase` from `astro.rs`, with Rust's truncated `%`. -/
def get_phase (ts initial_phase period : ℝ) : ℝ :=
  rrem (initial_phase + rrem (ts / period * 2 * π) (2 * π)) (2 * π)

/-- Embedding of `to_local_coords` from `astro.rs`. -/
def to_local_coords (lat lon : ℝ) (vec : Vec3) : Vec3 :=
  rot_z lon (rot_y (-lat) vec)

/-- Embedding of `to_recent_coords` from `astro.rs`. -/
def to_recent_coords (daily_phase : ℝ) (vec : Vec3) : Vec3 :=
  rot_z daily_phase vec

/-- Embedding of `to_global_coords` from `astro.rs`. -/
def to_global_coords (axial_tilt axial_direction : ℝ) (vec : Vec3) : Vec3 :=
  rot_z axial_direction (rot_y axial_tilt (rot_z (-axial_direction) vec))

/-- Embedding of `get_normal_and_north` from `astro.rs`. -/
def get_normal_and_north (ts latitude longitude : ℝ) : Vec3 × Vec3 :=
  let daily_phase := get_phase ts INITIAL_DAILY_PHASE SIDEREAL_DAY
  let normal := to_global_coords AXIAL_TILT AXIAL_DIRECTION
    (to_recent_coords daily_phase (to_local_coords latitude longitude X_UNIT))
  let north := to_global_coords AXIAL_TILT AXIAL_DIRECTION
    (to_recent_coords daily_phase (to_local_coords latitude longitude Z_UNIT))
  (normal, north)

/-- Embedding of `get_altitude` from `astro.rs`. -/
def get_altitude (normal to_object : Vec3) : ℝ :=
  π / 2 - Real.arccos (normal.dot to_object)

/-- Embedding of `get_azimuth` from `astro.rs`. -/
def get_azimuth (normal north to_object : Vec3) : ℝ :=
  let proj := (to_object.sub (normal.smul (normal.dot to_object))).normalize
  let angle := Real.arccos (north.dot proj)
  let east := north.cross normal
  if east.dot proj > 0 then angle else 2 * π - angle

/-- Embedding of `get_lunar_phase` from `astro.rs`. -/
def get_lunar_phase (to_sun to_moon : Vec3) : ℝ :=
  let angle := Real.arccos (to_sun.dot to_moon)
  if (to_sun.cross to_moon).dot Z_UNIT > 0 then angle else 2 * π - angle

/-- Embedding of `get_moon_angle` from `astro.rs`. -/
def get_moon_angle (normal north to_moon to_sun : Vec3) (az lunar_phase : ℝ) : ℝ :=
  let moon_to_sun := (to_sun.sub to_moon).normalize
  let proj_moon_to_sun := (moon_to_sun.sub (to_moon.smul (to_moon.dot moon_to_sun))).normalize
  let east := north.cross normal
  let local_moon_to_sun : Vec3 :=
    ⟨east.dot proj_moon_to_sun, north.dot proj_moon_to_sun, normal.dot proj_moon_to_sun⟩
  let level := rot_z (-az) X_UNIT
  let angle := Real.arccos (level.dot local_moon_to_sun)
  let local_to_moon : Vec3 := ⟨east.dot to_moon, north.dot to_moon, normal.dot to_moon⟩
  let angle₂ :=
    if (level.cross local_moon_to_sun).dot local_to_moon > 0 then angle else 2 * π - angle
  if lunar_phase < π then rrem (π - az + angle₂) (2 * π)
  else rrem (π - az + angle₂ + π) (2 * π)

/-- Embedding of `stereographic_projection` from `math.rs`. -/
def stereographic_projection (alt az : ℝ) : ℝ × ℝ :=
  let zenith_angle := alt + π / 2
  let r := Real.sin zenith_angle / (1 - Real.cos zenith_angle)
  (r * Real.sin az, r * Real.cos az)

/-- Embedding of `circle_from_three_points` from `math.rs`. -/
def circle_from_three_points (a b c : ℝ × ℝ) : ℝ × ℝ × ℝ :=
  let ax := a.1; let ay := a.2
  let bx := b.1; let by₂ := b.2
  let cx := c.1; let cy := c.2
  let d := 2 * (ax * (by₂ - cy) + bx * (cy - ay) + cx * (ay - by₂))
  let x := ((ax * ax + ay * ay) * (by₂ - cy) + (bx * bx + by₂ * by₂) * (cy - ay) +
    (cx * cx + cy * cy) * (ay - by₂)) / d
  let y := ((ax * ax + ay * ay) * (cx - bx) + (bx * bx + by₂ * by₂) * (ax - cx) +
    (cx * cx + cy * cy) * (bx - ax)) / d
  let r := Real.sqrt ((ax - x) * (ax - x) + (ay - y) * (ay - y))
  (x, y, r)

/-- Embedding of `const INITIAL_PHASE`. -/
def INITIAL_PHASE : ℝ := 1.740805

/-- Embedding of `const SIDEREAL_YEAR`. -/
def SIDEREAL_YEAR : ℝ := 365.256363004 * 24 * 60 * 60

/-- Embedding of `const INITIAL_MOON_PHASE`. -/
def INITIAL_MOON_PHASE : ℝ := 3.43

/-- Embedding of `const SIDEREAL_MONTH`. -/
def SIDEREAL_MONTH : ℝ := 27.321582 * 24 * 60 * 60

/-- Embedding of `const MOON_INCLINATION`. -/
def MOON_INCLINATION : ℝ := 5.145396 * π / 180

/-- Embedding of `const INITIAL_NODAL_PHASE`. -/
def INITIAL_NODAL_PHASE : ℝ := 5.0

/-- Embedding of `const NODAL_PERIOD`. -/
def NODAL_PERIOD : ℝ := 18.61 * SIDEREAL_YEAR

/-- Embedding of `get_sun_direction` from `astro.rs`. -/
def get_sun_direction (phase : ℝ) : Vec3 := (rot_z phase X_UNIT).neg

/-- Embedding of `get_object_direction` from `astro.rs`. -/
def get_object_direction (object_phase : ℝ) : Vec3 := rot_z object_phase X_UNIT

/-- Embedding of `get_inclined_direction` from `astro.rs`. -/
def get_inclined_direction (to_moon : Vec3) (inclination nodal_phase : ℝ) : Vec3 :=
  rot_z (-nodal_phase) (rot_y (-inclination) (rot_z nodal_phase to_moon))

/-- Embedding of `struct Engine` (the `DateTime` is represented by the
fractional Unix timestamp `ts` it is converted to). -/
structure Engine where
  ts : ℝ
  normal : Vec3
  north : Vec3

/-- Embedding of `Engine::new`. -/
def Engine.new (ts latitude longitude : ℝ) : Engine :=
  let p := get_normal_and_north ts latitude longitude
  ⟨ts, p.1, p.2⟩

/-- Embedding of `Engine::get_moon_position`; its third and fourth components
are `get_lunar_phase` and `get_moon_angle` applied to the snapshot's
geometry. -/
def Engine.get_moon_position (e : Engine) : ℝ × ℝ × ℝ × ℝ :=
  let moon_phase := get_phase e.ts INITIAL_MOON_PHASE SIDEREAL_MONTH
  let to_moon := get_object_direction moon_phase
  let nodal_phase := get_phase e.ts INITIAL_NODAL_PHASE NODAL_PERIOD
  let to_moon := get_inclined_direction to_moon MOON_INCLINATION nodal_phase
  let sun_phase := get_phase e.ts INITIAL_PHASE SIDEREAL_YEAR
  let to_sun := get_sun_direction sun_phase
  let alt := get_altitude e.normal to_moon
  let az := get_azimuth e.normal e.north to_moon
  let lunar_phase := get_lunar_phase to_sun to_moon
  let angle := get_moon_angle e.normal e.north to_moon to_sun az lunar_phase
  (alt, az, lunar_phase, angle)

/-! ## Arithmetic of the truncated remainder -/

lemma rrem_eq_fract (a b : ℝ) (ha : 0 ≤ a) (hb : 0 < b) :
    rrem a b = b * Int.fract (a / b) := by
  have hb0 : b ≠ 0 := ne_of_gt hb
  rw [rrem, rtrunc, if_pos (div_nonneg ha hb.le), Int.fract, mul_sub,
    mul_div_cancel₀ a hb0]

lemma rrem_mem_Ico (a b : ℝ) (ha : 0 ≤ a) (hb : 0 < b) :
    rrem a b ∈ Set.Ico 0 b := by
  rw [rrem_eq_fract a b ha hb]
  constructor
  · exact mul_nonneg hb.le (Int.fract_nonneg _)
  · calc b * Int.fract (a / b) < b * 1 :=
        (mul_lt_mul_left hb).mpr (Int.fract_lt_one _)
      _ = b := mul_one b

lemma rrem_nonneg (a b : ℝ) (ha : 0 ≤ a) (hb : 0 < b) : 0 ≤ rrem a b :=
  (rrem_mem_Ico a b ha hb).1

lemma rrem_lt (a b : ℝ) (ha : 0 ≤ a) (hb : 0 < b) : rrem a b < b :=
  (rrem_mem_Ico a b ha hb).2

lemma rrem_add_cycle (x b : ℝ) (hx : 0 ≤ x) (hb : 0 < b) :
    rrem (x + b) b = rrem x b := by
  have hb0 : b ≠ 0 := ne_of_gt hb
  have hx2 : 0 ≤ x + b := by linarith
  rw [rrem_eq_fract _ _ hx2 hb, rrem_eq_fract _ _ hx hb]
  have : (x + b) / b = x / b + 1 := by field_simp
  rw [this, Int.fract_add_one]

lemma rrem_of_nonneg_lt (x b : ℝ) (hb : 0 < b) (h0 : 0 ≤ x) (hx : x < b) :
    rrem x b = x := by
  have h1 : ⌊x / b⌋ = 0 := by
    rw [Int.floor_eq_zero_iff]
    exact ⟨div_nonneg h0 hb.le, (div_lt_one hb).mpr hx⟩
  rw [rrem, rtrunc, if_pos (div_nonneg h0 hb.le), h1]
  simp

lemma rrem_of_neg (x b : ℝ) (hb : 0 < b) (h1 : -b < x) (h2 : x < 0) :
    rrem x b = x := by
  have hx : ¬ 0 ≤ x / b := by
    rw [not_le]
    exact div_neg_of_neg_of_pos h2 hb
  have hc : ⌈x / b⌉ = 0 := by
    rw [Int.ceil_eq_zero_iff]
    constructor
    · rw [lt_div_iff hb]
      linarith
    · exact le_of_lt (not_le.mp hx)
  rw [rrem, rtrunc, if_neg hx, hc]
  simp

/-! ## Claims C1 and C7: range and periodicity of `get_phase` -/

/-- C1 (amended): for every nonnegative timestamp `t`, initial phase
`p0 ∈ [0, 2π)` and positive period `T`, `get_phase t p0 T ∈ [0, 2π)`.
For negative timestamps the truncated Rust `%` can make the result negative,
so the nonnegativity hypothesis on `t` is necessary. -/
theorem get_phase_mem_Ico_of_nonneg (ts p0 T : ℝ) (hts : 0 ≤ ts) (hp0 : 0 ≤ p0)
    (hp0lt : p0 < 2 * π) (hT : 0 < T) :
    get_phase ts p0 T ∈ Set.Ico 0 (2 * π) := by
  have h2π : (0:ℝ) < 2 * π := by positivity
  have harg : 0 ≤ ts / T * 2 * π :=
    mul_nonneg (mul_nonneg (div_nonneg hts hT.le) (by norm_num)) Real.pi_pos.le
  have hinner : 0 ≤ rrem (ts / T * 2 * π) (2 * π) := rrem_nonneg _ _ harg h2π
  exact rrem_mem_Ico _ _ (by linarith) h2π

/-- Witness for C1's amended theorem at `t = 0`, `p0 = 1`, `T = 1`. -/
theorem get_phase_mem_Ico_of_nonneg_witness :
    (0:ℝ) ≤ 0 ∧ (0:ℝ) ≤ 1 ∧ (1:ℝ) < 2 * π ∧ (0:ℝ) < 1 ∧
      get_phase 0 1 1 ∈ Set.Ico 0 (2 * π) :=
  ⟨le_refl 0, by norm_num, by linarith [Real.pi_gt_three], by norm_num,
    get_phase_mem_Ico_of_nonneg 0 1 1 (le_refl 0) (by norm_num)
      (by linarith [Real.pi_gt_three]) (by norm_num)⟩

lemma get_phase_neg_quarter : get_phase (-(1/4)) 0 1 = -(π / 2) := by
  have hπ := Real.pi_pos
  have e1 : (-(1/4) : ℝ) / 1 * 2 * π = -(π / 2) := by ring
  have h1 : rrem (-(π / 2)) (2 * π) = -(π / 2) :=
    rrem_of_neg _ _ (by positivity) (by linarith) (by linarith)
  rw [get_phase, e1, h1, zero_add, h1]

/-- Counterexample to C1 as stated: at `t = -1/4`, `p0 = 0 ∈ [0, 2π)`,
`T = 1 > 0`, the code returns `-π/2`, which is not in `[0, 2π)`. -/
theorem get_phase_neg_escapes_Ico :
    (0:ℝ) ∈ Set.Ico 0 (2 * π) ∧ (0:ℝ) < 1 ∧
      get_phase (-(1/4)) 0 1 ∉ Set.Ico 0 (2 * π) := by
  have hπ := Real.pi_pos
  refine ⟨⟨le_refl 0, by positivity⟩, by norm_num, ?_⟩
  rw [get_phase_neg_quarter, Set.mem_Ico, not_and_or]
  left
  rw [not_le]
  linarith

/-- C7 (amended): for every nonnegative timestamp `t`, any initial phase `p0`
and positive period `T`, `get_phase (t + T) p0 T = get_phase t p0 T` exactly.
For negative `t` the truncated `%` breaks exact periodicity (it holds only
modulo `2π`), so the nonnegativity hypothesis is necessary. -/
theorem get_phase_periodic_of_nonneg (ts p0 T : ℝ) (hts : 0 ≤ ts) (hT : 0 < T) :
    get_phase (ts + T) p0 T = get_phase ts p0 T := by
  have h2π : (0:ℝ) < 2 * π := by positivity
  have harg : 0 ≤ ts / T * 2 * π :=
    mul_nonneg (mul_nonneg (div_nonneg hts hT.le) (by norm_num)) Real.pi_pos.le
  have e1 : (ts + T) / T * 2 * π = ts / T * 2 * π + 2 * π := by
    field_simp
    ring
  rw [get_phase, get_phase, e1, rrem_add_cycle _ _ harg h2π]

/-- Witness for C7's amended theorem at `t = 0`, `p0 = 1`, `T = 1`. -/
theorem get_phase_periodic_of_nonneg_witness :
    (0:ℝ) ≤ 0 ∧ (0:ℝ) < 1 ∧ get_phase (0 + 1) 1 1 = get_phase 0 1 1 :=
  ⟨le_refl 0, by norm_num, get_phase_periodic_of_nonneg 0 1 1 (le_refl 0) (by norm_num)⟩

/-- Counterexample to C7 as stated: at `t = -1/4`, `p0 = 0`, `T = 1 > 0`
the code yields `get_phase (t + T) = 3π/2` but `get_phase t = -π/2`, so exact
periodicity fails for negative timestamps. -/
theorem get_phase_not_periodic_at_neg :
    (0:ℝ) < 1 ∧ get_phase (-(1/4) + 1) 0 1 ≠ get_phase (-(1/4)) 0 1 := by
  have hπ := Real.pi_pos
  have h2π : (0:ℝ) < 2 * π := by positivity
  refine ⟨by norm_num, ?_⟩
  have e1 : (-(1/4) + 1 : ℝ) / 1 * 2 * π = 3 * π / 2 := by ring
  have h1 : rrem (3 * π / 2) (2 * π) = 3 * π / 2 :=
    rrem_of_nonneg_lt _ _ h2π (by positivity) (by linarith)
  have hL : get_phase (-(1/4) + 1) 0 1 = 3 * π / 2 := by
    rw [get_phase, e1, h1, zero_add, h1]
  rw [hL, get_phase_neg_quarter]
  intro h
  linarith

/-! ## Claim C2: range of `get_azimuth` -/

lemma if_arccos_mem_Icc (c : Prop) [Decidable c] (t : ℝ) :
    (if c then Real.arccos t else 2 * π - Real.arccos t) ∈ Set.Icc 0 (2 * π) := by
  have h1 := Real.arccos_nonneg t
  have h2 := Real.arccos_le_pi t
  have hπ := Real.pi_pos
  split_ifs with h
  · exact ⟨h1, by linarith⟩
  · exact ⟨by linarith, by linarith⟩

/-- C2 (amended): for all inputs, `get_azimuth` returns a value in the closed
interval `[0, 2π]`. The upper endpoint `2π` is attained (see the
counterexample theorem), so the half-open interval `[0, 2π)` of the claim
is too small. -/
theorem get_azimuth_mem_Icc (normal north to_object : Vec3) :
    get_azimuth normal north to_object ∈ Set.Icc 0 (2 * π) := by
  simp only [get_azimuth]
  exact if_arccos_mem_Icc _ _

/-- Counterexample to C2 as stated: for the unit, mutually orthogonal
`normal = Ẑ`, `north = Ŷ` and the unit vector `to_object = (0, 3/5, 4/5)`
(whose projection onto the horizontal plane is the nonzero `(0, 3/5, 0)`),
the code returns exactly `2π`, which is not in `[0, 2π)`. This matches the
repository's own test `test_get_azimuth`. -/
theorem get_azimuth_attains_two_pi :
    Vec3.dot Z_UNIT Z_UNIT = 1 ∧ Vec3.dot Y_UNIT Y_UNIT = 1 ∧
    Vec3.dot Z_UNIT Y_UNIT = 0 ∧
    Vec3.dot (⟨0, 3/5, 4/5⟩ : Vec3) ⟨0, 3/5, 4/5⟩ = 1 ∧
    get_azimuth Z_UNIT Y_UNIT ⟨0, 3/5, 4/5⟩ ∉ Set.Ico 0 (2 * π) := by
  have hsub : (Vec3.mk 0 (3/5) (4/5)).sub
      (Z_UNIT.smul (Z_UNIT.dot ⟨0, 3/5, 4/5⟩)) = ⟨0, 3/5, 0⟩ := by
    norm_num [Vec3.sub, Vec3.smul, Vec3.dot, Z_UNIT, Vec3.mk.injEq]
  have hlen : (Vec3.mk 0 (3/5) 0).length = 3/5 := by
    simp only [Vec3.length, Vec3.dot]
    rw [show (0 * 0 + 3/5 * (3/5) + 0 * 0 : ℝ) = (3/5)^2 by norm_num]
    exact Real.sqrt_sq (by norm_num)
  have hproj : ((Vec3.mk 0 (3/5) (4/5)).sub
      (Z_UNIT.smul (Z_UNIT.dot ⟨0, 3/5, 4/5⟩))).normalize = Y_UNIT := by
    rw [hsub]
    simp only [Vec3.normalize, hlen, Vec3.smul]
    norm_num [Y_UNIT, Vec3.mk.injEq]
  have key : get_azimuth Z_UNIT Y_UNIT ⟨0, 3/5, 4/5⟩ = 2 * π := by
    simp only [get_azimuth, hproj]
    rw [if_neg (by norm_num [Vec3.cross, Vec3.dot, Y_UNIT, Z_UNIT])]
    norm_num [Vec3.dot, Y_UNIT, Real.arccos_one]
  refine ⟨by norm_num [Vec3.dot, Z_UNIT], by norm_num [Vec3.dot, Y_UNIT],
    by norm_num [Vec3.dot, Z_UNIT, Y_UNIT], by norm_num [Vec3.dot], ?_⟩
  rw [key, Set.mem_Ico, not_and_or]
  right
  exact lt_irrefl _

/-! ## Claim C3: range of `get_lunar_phase` and its value at opposition -/

/-- C3 (amended): for unit vectors `to_sun` and `to_moon`, the Sun-Moon
elongation `get_lunar_phase to_sun to_moon` lies in the closed interval
`[0, 2π]` (the endpoint `2π` is attained at conjunction, see the
counterexample theorem), and at opposition (`to_moon = -to_sun`) it
equals `π`. -/
theorem get_lunar_phase_mem_Icc_opposition (s m : Vec3)
    (hs : Vec3.dot s s = 1) (hm : Vec3.dot m m = 1) :
    get_lunar_phase s m ∈ Set.Icc 0 (2 * π) ∧
      (m = Vec3.neg s → get_lunar_phase s m = π) := by
  have hπ := Real.pi_pos
  constructor
  · simp only [get_lunar_phase]
    exact if_arccos_mem_Icc _ _
  · intro hopp
    have hd : Vec3.dot s (Vec3.neg s) = -1 := by
      have h := hs
      simp only [Vec3.dot, Vec3.neg] at h ⊢
      linear_combination -h
    have hcross : Vec3.cross s (Vec3.neg s) = ⟨0, 0, 0⟩ := by
      simp only [Vec3.cross, Vec3.neg, Vec3.mk.injEq]
      refine ⟨by ring, by ring, by ring⟩
    rw [hopp]
    simp only [get_lunar_phase, hd, hcross]
    rw [if_neg (by norm_num [Vec3.dot, Z_UNIT]), Real.arccos_neg_one]
    ring

/-- Witness for C3's amended theorem at `to_sun = X̂`, `to_moon = -X̂`. -/
theorem get_lunar_phase_mem_Icc_opposition_witness :
    Vec3.dot X_UNIT X_UNIT = 1 ∧ Vec3.dot (Vec3.neg X_UNIT) (Vec3.neg X_UNIT) = 1 ∧
    (get_lunar_phase X_UNIT (Vec3.neg X_UNIT) ∈ Set.Icc 0 (2 * π) ∧
      (Vec3.neg X_UNIT = Vec3.neg X_UNIT → get_lunar_phase X_UNIT (Vec3.neg X_UNIT) = π)) :=
  ⟨by norm_num [Vec3.dot, X_UNIT], by norm_num [Vec3.dot, Vec3.neg, X_UNIT],
    get_lunar_phase_mem_Icc_opposition X_UNIT (Vec3.neg X_UNIT)
      (by norm_num [Vec3.dot, X_UNIT]) (by norm_num [Vec3.dot, Vec3.neg, X_UNIT])⟩

/-- Counterexample to C3 as stated: at conjunction (`to_sun = to_moon = X̂`,
both unit) the code returns exactly `2π`, not in `[0, 2π)` — matching the
repository's own test `test_get_lunar_phase`. -/
theorem get_lunar_phase_attains_two_pi :
    Vec3.dot X_UNIT X_UNIT = 1 ∧
    get_lunar_phase X_UNIT X_UNIT ∉ Set.Ico 0 (2 * π) := by
  have key : get_lunar_phase X_UNIT X_UNIT = 2 * π := by
    simp only [get_lunar_phase]
    rw [if_neg (by norm_num [Vec3.dot, Vec3.cross, X_UNIT, Z_UNIT])]
    norm_num [Vec3.dot, X_UNIT, Real.arccos_one]
  refine ⟨by norm_num [Vec3.dot, X_UNIT], ?_⟩
  rw [key, Set.mem_Ico, not_and_or]
  right
  exact lt_irrefl _

/-! ## Claim C5: the observer frame is orthonormal -/

lemma rot_z_dot (a : ℝ) (u v : Vec3) :
    (rot_z a u).dot (rot_z a v) = u.dot v := by
  simp only [rot_z, Vec3.dot]
  linear_combination (u.x * v.x + u.y * v.y) * Real.sin_sq_add_cos_sq a

lemma rot_y_dot (a : ℝ) (u v : Vec3) :
    (rot_y a u).dot (rot_y a v) = u.dot v := by
  simp only [rot_y, Vec3.dot]
  linear_combination (u.x * v.x + u.z * v.z) * Real.sin_sq_add_cos_sq a

lemma frame_chain_dot (t d p la lo : ℝ) (u v : Vec3) :
    (to_global_coords t d (to_recent_coords p (to_local_coords la lo u))).dot
      (to_global_coords t d (to_recent_coords p (to_local_coords la lo v))) = u.dot v := by
  simp only [to_global_coords, to_recent_coords, to_local_coords]
  rw [rot_z_dot, rot_y_dot, rot_z_dot, rot_z_dot, rot_z_dot, rot_y_dot]

/-- C5: for every timestamp, latitude and longitude, the `normal` and `north`
vectors computed by `get_normal_and_north` (as in `Engine::new`) are unit
length and exactly orthogonal in real arithmetic, because they are images of
the orthonormal pair `X̂`, `Ẑ` under compositions of rotations. -/
theorem get_normal_and_north_orthonormal (ts latitude longitude : ℝ) :
    Vec3.dot (get_normal_and_north ts latitude longitude).1
        (get_normal_and_north ts latitude longitude).1 = 1 ∧
    Vec3.dot (get_normal_and_north ts latitude longitude).2
        (get_normal_and_north ts latitude longitude).2 = 1 ∧
    Vec3.dot (get_normal_and_north ts latitude longitude).1
        (get_normal_and_north ts latitude longitude).2 = 0 := by
  simp only [get_normal_and_north]
  refine ⟨?_, ?_, ?_⟩ <;>
    rw [frame_chain_dot] <;> norm_num [Vec3.dot, X_UNIT, Z_UNIT]

/-! ## Claim C8: axis-alignment identities of `to_local_coords` -/

/-- C8: the local-frame transform sends `X̂` to `X̂` at `(lat, lon) = (0, 0)`,
to `Ẑ` at `(π/2, 0)`, and to `Ŷ` at `(0, π/2)`, as the right-hand-rule
convention demands; this matches the repository's `test_to_local_coords`. -/
theorem to_local_coords_axis_alignment :
    to_local_coords 0 0 X_UNIT = X_UNIT ∧
    to_local_coords (π / 2) 0 X_UNIT = Z_UNIT ∧
    to_local_coords 0 (π / 2) X_UNIT = Y_UNIT := by
  refine ⟨?_, ?_, ?_⟩ <;>
    norm_num [to_local_coords, rot_y, rot_z, X_UNIT, Y_UNIT, Z_UNIT,
      Vec3.mk.injEq, Real.cos_pi_div_two, Real.sin_pi_div_two]

/-! ## Claim C9: range of `get_altitude` -/

lemma Vec3.dot_self_nonneg (w : Vec3) : 0 ≤ w.dot w := by
  simp only [Vec3.dot]
  nlinarith [mul_self_nonneg w.x, mul_self_nonneg w.y, mul_self_nonneg w.z]

lemma Vec3.dot_le_one (u v : Vec3) (hu : u.dot u = 1) (hv : v.dot v = 1) :
    -1 ≤ u.dot v ∧ u.dot v ≤ 1 := by
  have lagrange : (u.dot v) ^ 2 + (u.cross v).dot (u.cross v) =
      (u.dot u) * (v.dot v) := by
    simp only [Vec3.dot, Vec3.cross]
    ring
  have hcc := Vec3.dot_self_nonneg (u.cross v)
  have hsq : (u.dot v) ^ 2 ≤ 1 := by
    rw [hu, hv] at lagrange
    nlinarith
  constructor
  · nlinarith [sq_nonneg (u.dot v + 1)]
  · nlinarith [sq_nonneg (u.dot v - 1)]

/-- C9: for unit vectors `normal` and `to_object`, the `acos` argument
`normal · to_object` lies in `[-1, 1]`, the altitude lies in `[-π/2, π/2]`,
and it equals `π/2` at the zenith `to_object = normal`. -/
theorem get_altitude_range (n o : Vec3) (hn : Vec3.dot n n = 1)
    (ho : Vec3.dot o o = 1) :
    (-1 ≤ Vec3.dot n o ∧ Vec3.dot n o ≤ 1) ∧
    get_altitude n o ∈ Set.Icc (-(π / 2)) (π / 2) ∧
    (o = n → get_altitude n o = π / 2) := by
  refine ⟨Vec3.dot_le_one n o hn ho, ?_, ?_⟩
  · have h1 := Real.arccos_nonneg (n.dot o)
    have h2 := Real.arccos_le_pi (n.dot o)
    rw [get_altitude]
    constructor <;> [linarith; linarith]
  · intro h
    rw [h, get_altitude, hn, Real.arccos_one, sub_zero]

/-- Witness for C9 at `normal = to_object = X̂`. -/
theorem get_altitude_range_witness :
    Vec3.dot X_UNIT X_UNIT = 1 ∧
    ((-1 ≤ Vec3.dot X_UNIT X_UNIT ∧ Vec3.dot X_UNIT X_UNIT ≤ 1) ∧
     get_altitude X_UNIT X_UNIT ∈ Set.Icc (-(π / 2)) (π / 2) ∧
     (X_UNIT = X_UNIT → get_altitude X_UNIT X_UNIT = π / 2)) :=
  ⟨by norm_num [Vec3.dot, X_UNIT],
    get_altitude_range X_UNIT X_UNIT (by norm_num [Vec3.dot, X_UNIT])
      (by norm_num [Vec3.dot, X_UNIT])⟩

/-! ## Claim C10: the horizon maps to the unit circle -/

/-- C10: for every azimuth, `stereographic_projection 0 az` lands on the unit
circle: at altitude `0` the projected radius is exactly `1`. -/
theorem stereographic_projection_horizon_unit (az : ℝ) :
    (stereographic_projection 0 az).1 ^ 2 + (stereographic_projection 0 az).2 ^ 2 = 1 := by
  simp only [stereographic_projection]
  rw [zero_add, Real.sin_pi_div_two, Real.cos_pi_div_two]
  norm_num [Real.sin_sq_add_cos_sq]

/-! ## Claim C6: `circle_from_three_points` returns the circumcircle -/

lemma sqrt_sq_sum_self (p q : ℝ) :
    Real.sqrt (p * p + q * q) ^ 2 = p * p + q * q :=
  Real.sq_sqrt (by nlinarith [mul_self_nonneg p, mul_self_nonneg q])

/-- C6: whenever the determinant denominator `d` is nonzero, the returned
radius is nonnegative and the squared distance from the returned center to
each of `a`, `b`, `c` equals the squared radius — so the center is
equidistant from the three points and the radius is that common distance. -/
theorem circle_from_three_points_circumcircle (a b c : ℝ × ℝ)
    (hd : 2 * (a.1 * (b.2 - c.2) + b.1 * (c.2 - a.2) + c.1 * (a.2 - b.2)) ≠ 0) :
    0 ≤ (circle_from_three_points a b c).2.2 ∧
    (a.1 - (circle_from_three_points a b c).1) ^ 2 +
      (a.2 - (circle_from_three_points a b c).2.1) ^ 2 =
      (circle_from_three_points a b c).2.2 ^ 2 ∧
    (b.1 - (circle_from_three_points a b c).1) ^ 2 +
      (b.2 - (circle_from_three_points a b c).2.1) ^ 2 =
      (circle_from_three_points a b c).2.2 ^ 2 ∧
    (c.1 - (circle_from_three_points a b c).1) ^ 2 +
      (c.2 - (circle_from_three_points a b c).2.1) ^ 2 =
      (circle_from_three_points a b c).2.2 ^ 2 := by
  simp only [circle_from_three_points]
  refine ⟨Real.sqrt_nonneg _, ?_, ?_, ?_⟩ <;>
    rw [sqrt_sq_sum_self] <;>
    field_simp <;>
    ring

lemma circle_unit_eval :
    circle_from_three_points ((1:ℝ), (0:ℝ)) ((0:ℝ), (1:ℝ)) ((-1:ℝ), (0:ℝ)) =
      (0, 0, 1) := by
  simp only [circle_from_three_points]
  norm_num [Prod.ext_iff, Real.sqrt_one]

/-- Witness for C6 on the three points `(1,0)`, `(0,1)`, `(-1,0)` of the unit
circle: the denominator is nonzero, the circumcircle property holds there,
and the returned value is exactly center `(0,0)` with radius `1`. -/
theorem circle_from_three_points_circumcircle_witness :
    (2 * (((1:ℝ), (0:ℝ)).1 * (((0:ℝ), (1:ℝ)).2 - ((-1:ℝ), (0:ℝ)).2) +
        ((0:ℝ), (1:ℝ)).1 * (((-1:ℝ), (0:ℝ)).2 - ((1:ℝ), (0:ℝ)).2) +
        ((-1:ℝ), (0:ℝ)).1 * (((1:ℝ), (0:ℝ)).2 - ((0:ℝ), (1:ℝ)).2)) ≠ 0) ∧
    (0 ≤ (circle_from_three_points ((1:ℝ), (0:ℝ)) (0, 1) (-1, 0)).2.2 ∧
      (((1:ℝ), (0:ℝ)).1 - (circle_from_three_points ((1:ℝ), (0:ℝ)) (0, 1) (-1, 0)).1) ^ 2 +
        (((1:ℝ), (0:ℝ)).2 - (circle_from_three_points ((1:ℝ), (0:ℝ)) (0, 1) (-1, 0)).2.1) ^ 2 =
        (circle_from_three_points ((1:ℝ), (0:ℝ)) (0, 1) (-1, 0)).2.2 ^ 2 ∧
      (((0:ℝ), (1:ℝ)).1 - (circle_from_three_points ((1:ℝ), (0:ℝ)) (0, 1) (-1, 0)).1) ^ 2 +
        (((0:ℝ), (1:ℝ)).2 - (circle_from_three_points ((1:ℝ), (0:ℝ)) (0, 1) (-1, 0)).2.1) ^ 2 =
        (circle_from_three_points ((1:ℝ), (0:ℝ)) (0, 1) (-1, 0)).2.2 ^ 2 ∧
      (((-1:ℝ), (0:ℝ)).1 - (circle_from_three_points ((1:ℝ), (0:ℝ)) (0, 1) (-1, 0)).1) ^ 2 +
        (((-1:ℝ), (0:ℝ)).2 - (circle_from_three_points ((1:ℝ), (0:ℝ)) (0, 1) (-1, 0)).2.1) ^ 2 =
        (circle_from_three_points ((1:ℝ), (0:ℝ)) (0, 1) (-1, 0)).2.2 ^ 2) ∧
    circle_from_three_points ((1:ℝ), (0:ℝ)) ((0:ℝ), (1:ℝ)) ((-1:ℝ), (0:ℝ)) = (0, 0, 1) :=
  ⟨by norm_num,
    circle_from_three_points_circumcircle ((1:ℝ), (0:ℝ)) (0, 1) (-1, 0) (by norm_num),
    circle_unit_eval⟩

/-! ## Claim C4: range of `get_moon_angle` -/

lemma rrem_snap (x : ℝ) (hlo : -π ≤ x) : rrem x (2 * π) ∈ Set.Ico (-π) (2 * π) := by
  have hπ := Real.pi_pos
  rcases le_or_lt 0 x with h0 | h0
  · have h := rrem_mem_Ico x (2 * π) h0 (by positivity)
    exact ⟨by linarith [h.1], h.2⟩
  · rw [rrem_of_neg x (2 * π) (by positivity) (by linarith) h0]
    exact ⟨hlo, by linarith⟩

lemma moon_branch_mem (az lp A : ℝ) (h0 : 0 ≤ az) (h2 : az ≤ 2 * π)
    (hA : A ∈ Set.Icc 0 (2 * π)) :
    (if lp < π then rrem (π - az + A) (2 * π) else rrem (π - az + A + π) (2 * π))
      ∈ Set.Ico (-π) (2 * π) := by
  have hπ := Real.pi_pos
  split_ifs
  · exact rrem_snap _ (by linarith [hA.1])
  · exact rrem_snap _ (by linarith [hA.1])

/-- C4 (amended): whenever the supplied azimuth lies in `[0, 2π]` (which
`get_azimuth` always guarantees), `get_moon_angle` returns a value in
`[-π, 2π)` — it can be negative, so the claimed interval `[0, 2π)` is wrong:
a valid geometry yields `-π/4` (see the counterexample theorem). -/
theorem get_moon_angle_mem_Ico (normal north to_moon to_sun : Vec3)
    (az lunar_phase : ℝ) (h0 : 0 ≤ az) (h2 : az ≤ 2 * π) :
    get_moon_angle normal north to_moon to_sun az lunar_phase
      ∈ Set.Ico (-π) (2 * π) := by
  simp only [get_moon_angle]
  exact moon_branch_mem _ _ _ h0 h2 (if_arccos_mem_Icc _ _)

/-- Witness for C4's amended theorem at the zero vectors and `az = 0`. -/
theorem get_moon_angle_mem_Ico_witness :
    (0:ℝ) ≤ 0 ∧ (0:ℝ) ≤ 2 * π ∧
    get_moon_angle ⟨0, 0, 0⟩ ⟨0, 0, 0⟩ ⟨0, 0, 0⟩ ⟨0, 0, 0⟩ 0 0
      ∈ Set.Ico (-π) (2 * π) :=
  ⟨le_refl 0, by positivity,
    get_moon_angle_mem_Ico ⟨0, 0, 0⟩ ⟨0, 0, 0⟩ ⟨0, 0, 0⟩ ⟨0, 0, 0⟩ 0 0
      (le_refl 0) (by positivity)⟩

lemma sqrt_two_mul_self : Real.sqrt 2 * Real.sqrt 2 = 2 :=
  Real.mul_self_sqrt (by norm_num)

lemma cos_three_pi_div_two : Real.cos (3 * π / 2) = 0 := by
  rw [show (3 * π / 2 : ℝ) = π + π / 2 by ring, Real.cos_add]
  simp

lemma sin_three_pi_div_two : Real.sin (3 * π / 2) = -1 := by
  rw [show (3 * π / 2 : ℝ) = π + π / 2 by ring, Real.sin_add]
  simp

lemma arccos_sqrt_two_div_two : Real.arccos (Real.sqrt 2 / 2) = π / 4 := by
  have hπ := Real.pi_pos
  rw [← Real.cos_pi_div_four]
  exact Real.arccos_cos (by positivity) (by linarith)

lemma azimuth_west : get_azimuth Z_UNIT Y_UNIT (Vec3.neg X_UNIT) = 3 * π / 2 := by
  have hsub : (Vec3.neg X_UNIT).sub (Z_UNIT.smul (Z_UNIT.dot (Vec3.neg X_UNIT))) =
      ⟨-1, 0, 0⟩ := by
    norm_num [Vec3.sub, Vec3.smul, Vec3.dot, Vec3.neg, X_UNIT, Z_UNIT, Vec3.mk.injEq]
  have hnorm : (Vec3.mk (-1) 0 0).normalize = ⟨-1, 0, 0⟩ := by
    simp only [Vec3.normalize, Vec3.length, Vec3.dot]
    norm_num [Vec3.smul, Vec3.mk.injEq, Real.sqrt_one]
  have hdot : Vec3.dot Y_UNIT ⟨-1, 0, 0⟩ = 0 := by norm_num [Vec3.dot, Y_UNIT]
  simp only [get_azimuth, hsub, hnorm]
  rw [if_neg (by norm_num [Vec3.cross, Vec3.dot, Y_UNIT, Z_UNIT]), hdot,
    Real.arccos_zero]
  ring

lemma lunar_phase_quarter :
    get_lunar_phase ⟨0, Real.sqrt 2 / 2, -(Real.sqrt 2 / 2)⟩ (Vec3.neg X_UNIT) = π / 2 := by
  have hdot : Vec3.dot (⟨0, Real.sqrt 2 / 2, -(Real.sqrt 2 / 2)⟩ : Vec3)
      (Vec3.neg X_UNIT) = 0 := by
    norm_num [Vec3.dot, Vec3.neg, X_UNIT]
  have hcond : Vec3.dot (Vec3.cross ⟨0, Real.sqrt 2 / 2, -(Real.sqrt 2 / 2)⟩
      (Vec3.neg X_UNIT)) Z_UNIT > 0 := by
    simp only [Vec3.cross, Vec3.dot, Vec3.neg, X_UNIT, Z_UNIT]
    norm_num
  simp only [get_lunar_phase]
  rw [if_pos hcond, hdot, Real.arccos_zero]

lemma moon_angle_eval :
    get_moon_angle Z_UNIT Y_UNIT (Vec3.neg X_UNIT)
      ⟨0, Real.sqrt 2 / 2, -(Real.sqrt 2 / 2)⟩ (3 * π / 2) (π / 2) = -(π / 4) := by
  have hπ := Real.pi_pos
  have h2 := sqrt_two_mul_self
  have hs2 : Real.sqrt 2 ≠ 0 := ne_of_gt (Real.sqrt_pos.mpr (by norm_num))
  have hsub2 : (Vec3.mk 0 (Real.sqrt 2 / 2) (-(Real.sqrt 2 / 2))).sub (Vec3.neg X_UNIT) =
      ⟨1, Real.sqrt 2 / 2, -(Real.sqrt 2 / 2)⟩ := by
    norm_num [Vec3.sub, Vec3.neg, X_UNIT, Vec3.mk.injEq]
  have hlen2 : (Vec3.mk 1 (Real.sqrt 2 / 2) (-(Real.sqrt 2 / 2))).length = Real.sqrt 2 := by
    simp only [Vec3.length, Vec3.dot]
    rw [show (1 * 1 + Real.sqrt 2 / 2 * (Real.sqrt 2 / 2) +
      -(Real.sqrt 2 / 2) * -(Real.sqrt 2 / 2) : ℝ) = 2 from by linear_combination (1/2) * h2]
  have hnorm2 : (Vec3.mk 1 (Real.sqrt 2 / 2) (-(Real.sqrt 2 / 2))).normalize =
      ⟨Real.sqrt 2 / 2, 1 / 2, -(1 / 2)⟩ := by
    simp only [Vec3.normalize, hlen2, Vec3.smul, Vec3.mk.injEq]
    refine ⟨?_, ?_, ?_⟩ <;> field_simp <;>
      linarith [Real.sq_sqrt (show (0:ℝ) ≤ 2 from by norm_num)]
  have hmts : ((Vec3.mk 0 (Real.sqrt 2 / 2) (-(Real.sqrt 2 / 2))).sub
      (Vec3.neg X_UNIT)).normalize = ⟨Real.sqrt 2 / 2, 1 / 2, -(1 / 2)⟩ := by
    rw [hsub2]
    exact hnorm2
  have hsub3 : (Vec3.mk (Real.sqrt 2 / 2) (1 / 2) (-(1 / 2))).sub
      ((Vec3.neg X_UNIT).smul ((Vec3.neg X_UNIT).dot
        ⟨Real.sqrt 2 / 2, 1 / 2, -(1 / 2)⟩)) = ⟨0, 1 / 2, -(1 / 2)⟩ := by
    norm_num [Vec3.sub, Vec3.smul, Vec3.dot, Vec3.neg, X_UNIT, Vec3.mk.injEq]
  have hlen3 : (Vec3.mk 0 (1 / 2) (-(1 / 2))).length = Real.sqrt 2 / 2 := by
    simp only [Vec3.length, Vec3.dot]
    rw [show (0 * 0 + 1 / 2 * (1 / 2) + -(1 / 2) * -(1 / 2) : ℝ) = 1 / 2 from by norm_num]
    rw [Real.sqrt_eq_iff_sq_eq (by norm_num) (by positivity)]
    rw [div_pow, Real.sq_sqrt (by norm_num)]
    norm_num
  have hnorm3 : (Vec3.mk 0 (1 / 2) (-(1 / 2))).normalize =
      ⟨0, Real.sqrt 2 / 2, -(Real.sqrt 2 / 2)⟩ := by
    simp only [Vec3.normalize, hlen3, Vec3.smul, Vec3.mk.injEq]
    refine ⟨by norm_num, ?_, ?_⟩ <;> field_simp <;>
      linarith [Real.sq_sqrt (show (0:ℝ) ≤ 2 from by norm_num)]
  have hpmts : ((Vec3.mk (Real.sqrt 2 / 2) (1 / 2) (-(1 / 2))).sub
      ((Vec3.neg X_UNIT).smul ((Vec3.neg X_UNIT).dot
        ⟨Real.sqrt 2 / 2, 1 / 2, -(1 / 2)⟩))).normalize =
      ⟨0, Real.sqrt 2 / 2, -(Real.sqrt 2 / 2)⟩ := by
    rw [hsub3]
    exact hnorm3
  have heast : Y_UNIT.cross Z_UNIT = ⟨1, 0, 0⟩ := by
    norm_num [Vec3.cross, Y_UNIT, Z_UNIT, Vec3.mk.injEq]
  have hlm : Vec3.mk ((Vec3.mk 1 0 0).dot ⟨0, Real.sqrt 2 / 2, -(Real.sqrt 2 / 2)⟩)
      (Y_UNIT.dot ⟨0, Real.sqrt 2 / 2, -(Real.sqrt 2 / 2)⟩)
      (Z_UNIT.dot ⟨0, Real.sqrt 2 / 2, -(Real.sqrt 2 / 2)⟩) =
      ⟨0, Real.sqrt 2 / 2, -(Real.sqrt 2 / 2)⟩ := by
    norm_num [Vec3.dot, Y_UNIT, Z_UNIT, Vec3.mk.injEq]
  have hltm : Vec3.mk ((Vec3.mk 1 0 0).dot (Vec3.neg X_UNIT))
      (Y_UNIT.dot (Vec3.neg X_UNIT)) (Z_UNIT.dot (Vec3.neg X_UNIT)) =
      ⟨-1, 0, 0⟩ := by
    norm_num [Vec3.dot, Vec3.neg, X_UNIT, Y_UNIT, Z_UNIT, Vec3.mk.injEq]
  have hlevel : rot_z (-(3 * π / 2)) X_UNIT = ⟨0, 1, 0⟩ := by
    simp only [rot_z, X_UNIT, Vec3.mk.injEq]
    rw [Real.cos_neg, Real.sin_neg, cos_three_pi_div_two, sin_three_pi_div_two]
    norm_num
  have hld : Vec3.dot ⟨0, 1, 0⟩ ⟨0, Real.sqrt 2 / 2, -(Real.sqrt 2 / 2)⟩ =
      Real.sqrt 2 / 2 := by
    norm_num [Vec3.dot]
  have hsign : Vec3.dot (Vec3.cross ⟨0, 1, 0⟩ ⟨0, Real.sqrt 2 / 2, -(Real.sqrt 2 / 2)⟩)
      ⟨-1, 0, 0⟩ = Real.sqrt 2 / 2 := by
    norm_num [Vec3.cross, Vec3.dot]
  simp only [get_moon_angle, hmts, hpmts, heast, hlm, hltm, hlevel, hld, hsign,
    arccos_sqrt_two_div_two]
  rw [if_pos (show (0:ℝ) < Real.sqrt 2 / 2 from by positivity),
    if_pos (show (π / 2 : ℝ) < π from by linarith)]
  rw [show (π - 3 * π / 2 + π / 4 : ℝ) = -(π / 4) from by ring]
  exact rrem_of_neg _ _ (by positivity) (by linarith) (by linarith)

/-- Counterexample to C4 as stated: for the valid geometry `normal = Ẑ`,
`north = Ŷ` (unit, orthogonal), unit `to_moon = -X̂` (Moon due west on the
horizon), unit `to_sun = (0, √2/2, -√2/2)`, with `az` the actual azimuth of
`to_moon` (`3π/2`) and `lunar_phase` the actual elongation (`π/2 < π`), the
code returns `-π/4`, which is not in `[0, 2π)`. -/
theorem get_moon_angle_escapes_Ico :
    Vec3.dot Z_UNIT Z_UNIT = 1 ∧ Vec3.dot Y_UNIT Y_UNIT = 1 ∧
    Vec3.dot Z_UNIT Y_UNIT = 0 ∧
    Vec3.dot (Vec3.neg X_UNIT) (Vec3.neg X_UNIT) = 1 ∧
    Vec3.dot (⟨0, Real.sqrt 2 / 2, -(Real.sqrt 2 / 2)⟩ : Vec3)
      ⟨0, Real.sqrt 2 / 2, -(Real.sqrt 2 / 2)⟩ = 1 ∧
    get_azimuth Z_UNIT Y_UNIT (Vec3.neg X_UNIT) = 3 * π / 2 ∧
    get_lunar_phase ⟨0, Real.sqrt 2 / 2, -(Real.sqrt 2 / 2)⟩ (Vec3.neg X_UNIT) = π / 2 ∧
    get_moon_angle Z_UNIT Y_UNIT (Vec3.neg X_UNIT)
      ⟨0, Real.sqrt 2 / 2, -(Real.sqrt 2 / 2)⟩ (3 * π / 2) (π / 2)
      ∉ Set.Ico 0 (2 * π) := by
  have hπ := Real.pi_pos
  have h2 := sqrt_two_mul_self
  refine ⟨by norm_num [Vec3.dot, Z_UNIT], by norm_num [Vec3.dot, Y_UNIT],
    by norm_num [Vec3.dot, Y_UNIT, Z_UNIT], by norm_num [Vec3.dot, Vec3.neg, X_UNIT],
    ?_, azimuth_west, lunar_phase_quarter, ?_⟩
  · simp only [Vec3.dot]
    linear_combination (1/2) * h2
  · rw [moon_angle_eval, Set.mem_Ico, not_and_or]
    left
    rw [not_le]
    linarith
